import Mathlib

/-!
Verification of the capture/validate I/O layer and resource-model behaviors of
the pylabrobot repository, as described by its documentation notebooks and
design specification.  The io-layer implementation (session controller,
recorder, validator, sequence aligner, capture-file serializer) is modelled
here as executable Lean definitions; the notebooks under the documentation
tree pin down the observable behavior at concrete points (capture-file JSON
shape, the rendered alignment diff, and the exact ValidationError message on
data mismatch).
-/

namespace PLR

/-- Action tag of a capture entry: one write or one read event. -/
inductive Action
  | write
  | read
deriving DecidableEq, Repr

/-- Modelled from the spec: one capture log entry, the unit of record, with
fields exactly module, device_id, action, data (data stored as decoded text). -/
structure CaptureEntry where
  module : String
  device_id : String
  action : Action
  data : String
deriving DecidableEq, Repr

/-- Modelled from the spec: a versioned capture file, a version tag plus the
ordered sequence of capture entries. -/
structure CaptureFile where
  version : String
  commands : List CaptureEntry
deriving DecidableEq, Repr

/-- Version tag written at capture time (the notebook shows 0.1.6). -/
def plrVersion : String := "0.1.6"

/-- Error taxonomy of the io layer, from the design spec section 7. -/
inductive PlrError
  | modeError
  | validationError (msg : String)
  | incompleteValidationError
  | transportError (msg : String)
deriving DecidableEq, Repr

/-- Modelled from the spec: the process-wide session state, exactly one of
inactive, capturing (with in-memory log) or validating (with loaded queue). -/
inductive SessionState
  | inactive
  | capturing (log : List CaptureEntry)
  | validating (queue : List CaptureEntry)
deriving DecidableEq, Repr

/-- Modelled from the spec: start_capture opens a capture session with an
empty in-memory log; any state other than inactive is a mode error. -/
def start_capture : SessionState → Except PlrError SessionState
  | .inactive => .ok (.capturing [])
  | _ => .error .modeError

/-- Modelled from the spec: stop_capture flushes the in-memory log to a
versioned capture file and returns to inactive; a mode error otherwise. -/
def stop_capture : SessionState → Except PlrError (SessionState × CaptureFile)
  | .capturing log => .ok (.inactive, ⟨plrVersion, log⟩)
  | _ => .error .modeError

/-- Modelled from the spec: validate loads a capture file into the global
entry queue and enters validating mode; a mode error outside inactive. -/
def validate (file : CaptureFile) : SessionState → Except PlrError SessionState
  | .inactive => .ok (.validating file.commands)
  | _ => .error .modeError

/-- Modelled from the spec: end_validation succeeds only in validating mode
with an empty remaining queue; unconsumed entries are an
IncompleteValidationError, and any non-validating state is a mode error. -/
def end_validation : SessionState → Except PlrError SessionState
  | .validating [] => .ok .inactive
  | .validating (_ :: _) => .error .incompleteValidationError
  | _ => .error .modeError

/-- One column of a global alignment: an aligned pair (match or substitution),
a deletion (token only on the expected side) or an insertion (token only on
the actual side). -/
inductive AlignOp
  | subst (e a : Char)
  | del (e : Char)
  | ins (a : Char)
deriving DecidableEq, Repr

/-- Modelled from the spec: fixed, equal, non-negative costs — a match costs
zero, a substitution, insertion or deletion each cost one. -/
def opCost : AlignOp → Nat
  | .subst e a => if e = a then 0 else 1
  | .del _ => 1
  | .ins _ => 1

/-- Total cost of an alignment path. -/
def alignCost (ops : List AlignOp) : Nat := (ops.map opCost).sum

/-- Expected-side projection of an alignment path (gaps dropped). -/
def expSide : List AlignOp → List Char
  | [] => []
  | .subst e _ :: t => e :: expSide t
  | .del e :: t => e :: expSide t
  | .ins _ :: t => expSide t

/-- Actual-side projection of an alignment path (gaps dropped). -/
def actSide : List AlignOp → List Char
  | [] => []
  | .subst _ a :: t => a :: actSide t
  | .del _ :: t => actSide t
  | .ins a :: t => a :: actSide t

/-- Property of a path being a global alignment of the two given sequences:
its two projections recover them exactly. -/
def Aligns (ops : List AlignOp) (es as : List Char) : Prop :=
  expSide ops = es ∧ actSide ops = as

instance (ops : List AlignOp) (es as : List Char) : Decidable (Aligns ops es as) :=
  inferInstanceAs (Decidable (_ ∧ _))

/-- Deterministic minimum choice: the first candidate is preferred on ties. -/
def pickMin (x y : List AlignOp) : List AlignOp :=
  if alignCost x ≤ alignCost y then x else y

/-- All-deletion alignment path of a sequence against the empty sequence. -/
def delAll (es : List Char) : List AlignOp := es.map .del

/-- All-insertion alignment path of the empty sequence against a sequence. -/
def insAll (as : List Char) : List AlignOp := as.map .ins

/-- Fuel-indexed core of the Needleman-Wunsch recursion; with fuel at least
the sum of the lengths the zero-fuel fallback is never reached. -/
def nwAux : Nat → List Char → List Char → List AlignOp
  | 0, es, as => delAll es ++ insAll as
  | _ + 1, [], as => insAll as
  | _ + 1, e :: es, [] => .del e :: delAll es
  | f + 1, e :: es, a :: as =>
    pickMin (.subst e a :: nwAux f es as)
      (pickMin (.del e :: nwAux f es (a :: as)) (.ins a :: nwAux f (e :: es) as))

/-- Modelled from the spec: the Needleman-Wunsch global aligner with the fixed
costs of opCost; on equal cost, substitution is preferred over deletion, and
deletion over insertion (a fixed deterministic tie preference). -/
def nw (es as : List Char) : List AlignOp :=
  nwAux (es.length + as.length) es as

/-- Gap padding character used when rendering an alignment. -/
def gapChar : Char := '-'

/-- Rendered expected-side line of an alignment, gap-padded at insertions. -/
def renderExp (ops : List AlignOp) : List Char :=
  ops.map fun op =>
    match op with
    | .subst e _ => e
    | .del e => e
    | .ins _ => gapChar

/-- Rendered actual-side line of an alignment, gap-padded at deletions. -/
def renderAct (ops : List AlignOp) : List Char :=
  ops.map fun op =>
    match op with
    | .subst _ a => a
    | .del _ => gapChar
    | .ins a => a

/-- Marker for one alignment column: a caret flags a differing column. -/
def markerOf : AlignOp → Char
  | .subst e a => if e = a then ' ' else '^'
  | .del _ => '^'
  | .ins _ => '^'

/-- Rendered marker line flagging the columns at which the sides differ. -/
def renderMarker (ops : List AlignOp) : List Char :=
  ops.map markerOf

/-- Expected-side content of one alignment column, none at a gap. -/
def colExp : AlignOp → Option Char
  | .subst e _ => some e
  | .del e => some e
  | .ins _ => none

/-- Actual-side content of one alignment column, none at a gap. -/
def colAct : AlignOp → Option Char
  | .subst _ a => some a
  | .del _ => none
  | .ins a => some a

/-- Rendered three-line diff between an expected and an actual string, in the
layout the validation notebook shows on a data mismatch. -/
def renderDiff (expected actual : String) : String :=
  let ops := nw expected.data actual.data
  "expected: " ++ String.mk (renderExp ops) ++ "\nactual:   " ++
    String.mk (renderAct ops) ++ "\n          " ++ String.mk (renderMarker ops)

/-- Message carried by the ValidationError on a data mismatch; the notebook
traceback shows this exact fixed string, the diff itself going to stdout. -/
def dataMismatchMsg : String := "Data mismatch: difference was written to stdout."

/-- Modelled from the spec: validator write. Pops the next entry of the
global queue and checks, in order, that the queue is non-empty, the entry is
a Write, its device matches and its data matches byte for byte; any failure
is a ValidationError. On a data mismatch the rendered alignment diff is
emitted on stdout (the first component) and the error carries the fixed
dataMismatchMsg, as the notebook traceback shows. No transport call is made:
the function has no transport collaborator at all. -/
def validate_write (dev data : String) :
    List CaptureEntry → List String × Except PlrError (List CaptureEntry)
  | [] => ([], .error (.validationError "Queue is empty"))
  | e :: rest =>
    if e.action ≠ .write then ([], .error (.validationError "Action mismatch"))
    else if e.device_id ≠ dev then ([], .error (.validationError "Device mismatch"))
    else if e.data ≠ data then
      ([renderDiff e.data data], .error (.validationError dataMismatchMsg))
    else ([], .ok rest)

/-- Modelled from the spec: validator read. Pops the next entry of the global
queue, requires it to be a Read entry for the same device, and returns that
entry's stored data as the read result; the timeout is never used because no
transport call is made. -/
def validate_read (dev : String) (timeout : Nat) :
    List CaptureEntry → Except PlrError (String × List CaptureEntry)
  | [] => .error (.validationError "Queue is empty")
  | e :: rest =>
    if e.action ≠ .read then .error (.validationError "Action mismatch")
    else if e.device_id ≠ dev then .error (.validationError "Device mismatch")
    else .ok (e.data, rest)

/-- One io-layer call of a protocol run: a write of given data to a device,
or a read from a device. -/
inductive Call
  | write (dev data : String)
  | read (dev : String)
deriving DecidableEq, Repr

/-- Device a call addresses. -/
def Call.dev : Call → String
  | .write d _ => d
  | .read d => d

/-- Modelled from the spec: capturing a protocol run appends one entry per
io call in wall-clock order; the transport is modelled as an oracle giving
the bytes the hardware answers to the k-th read. -/
def captureRun (oracle : Nat → String) : Nat → List Call → List CaptureEntry
  | _, [] => []
  | k, .write dev data :: rest =>
    ⟨"usb", dev, .write, data⟩ :: captureRun oracle k rest
  | k, .read dev :: rest =>
    ⟨"usb", dev, .read, oracle k⟩ :: captureRun oracle (k + 1) rest

/-- Read results a capture run observes from the transport oracle. -/
def collectReads (oracle : Nat → String) : Nat → List Call → List String
  | _, [] => []
  | k, .write _ _ :: rest => collectReads oracle k rest
  | k, .read _ :: rest => oracle k :: collectReads oracle (k + 1) rest

/-- Number of read calls of a protocol run. -/
def numReads : List Call → Nat
  | [] => 0
  | .write _ _ :: rest => numReads rest
  | .read _ :: rest => numReads rest + 1

/-- Modelled from the spec: validating a protocol run replays the calls in
order against the loaded global queue, collecting the synthesized read
results, and returns them with the remaining queue; the first mismatch stops
the run with its error. -/
def validateRun : List Call → List CaptureEntry →
    Except PlrError (List String × List CaptureEntry)
  | [], q => .ok ([], q)
  | .write dev data :: rest, q =>
    match (validate_write dev data q).2 with
    | .error err => .error err
    | .ok q2 => validateRun rest q2
  | .read dev :: rest, q =>
    match validate_read dev 0 q with
    | .error err => .error err
    | .ok (d, q2) =>
      match validateRun rest q2 with
      | .error err => .error err
      | .ok (ds, qf) => .ok (d :: ds, qf)

/-- Expected data used by the C2 counterexample: forty A characters. -/
def longData : String := "AAAAAAAAAAAAAAAAAAAAAAAAAAAAAAAAAAAAAAAA"

/-- Per-device subsequence of a protocol run. -/
def projDev (d : String) (cs : List Call) : List Call :=
  cs.filter fun c => c.dev == d

/-- Lossless byte-to-text escape for one character of a stored field. -/
def escapeChar (c : Char) : List Char :=
  if c = '"' ∨ c = '\\' then ['\\', c] else [c]

/-- Lossless escape of a whole stored field. -/
def escapeS (s : List Char) : List Char := s.flatMap escapeChar

/-- Parser for an escaped field body up to its closing quote; returns the
decoded field and the rest of the input. -/
def parseQuoted : List Char → Option (List Char × List Char)
  | [] => none
  | '\\' :: [] => none
  | '\\' :: d :: rest => (parseQuoted rest).map fun p => (d :: p.1, p.2)
  | '"' :: rest => some ([], rest)
  | c :: rest => (parseQuoted rest).map fun p => (c :: p.1, p.2)

/-- Parser for a fixed literal chunk; returns the rest of the input. -/
def lit : List Char → List Char → Option (List Char)
  | [], input => some input
  | _ :: _, [] => none
  | c :: cs, x :: xs => if x = c then lit cs xs else none

/-- Literal chunk opening an entry up to the module field. -/
def chunkEntry1 : List Char := "\x7b\"module\":\"".data

/-- Literal chunk between the module and device_id fields. -/
def chunkEntry2 : List Char := ",\"device_id\":\"".data

/-- Literal chunk between the device_id and action fields. -/
def chunkEntry3 : List Char := ",\"action\":\"".data

/-- Literal chunk between the action and data fields. -/
def chunkEntry4 : List Char := ",\"data\":\"".data

/-- Literal chunk closing an entry. -/
def chunkEntryEnd : List Char := "\x7d".data

/-- Serialized form of an action tag, as the capture file shows. -/
def Action.serialize : Action → String
  | .write => "write"
  | .read => "read"

/-- Parser for an action tag. -/
def parseAction (s : String) : Option Action :=
  if s = "write" then some .write
  else if s = "read" then some .read
  else none

/-- Modelled from the spec: one serialized capture entry with fields exactly
module, device_id, action and data, in the JSON shape the notebook shows. -/
def serializeEntry (e : CaptureEntry) : List Char :=
  chunkEntry1 ++ escapeS e.module.data ++ '"' ::
    (chunkEntry2 ++ escapeS e.device_id.data ++ '"' ::
      (chunkEntry3 ++ escapeS e.action.serialize.data ++ '"' ::
        (chunkEntry4 ++ escapeS e.data.data ++ '"' :: chunkEntryEnd)))

/-- Parser for one serialized capture entry. -/
def parseEntry (input : List Char) : Option (CaptureEntry × List Char) := do
  let i1 ← lit chunkEntry1 input
  let (m, i2) ← parseQuoted i1
  let i3 ← lit chunkEntry2 i2
  let (d, i4) ← parseQuoted i3
  let i5 ← lit chunkEntry3 i4
  let (a, i6) ← parseQuoted i5
  let act ← parseAction (String.mk a)
  let i7 ← lit chunkEntry4 i6
  let (t, i8) ← parseQuoted i7
  let i9 ← lit chunkEntryEnd i8
  pure (⟨String.mk m, String.mk d, act, String.mk t⟩, i9)

/-- Modelled from the spec: the comma-separated serialized command list. -/
def serializeCommands : List CaptureEntry → List Char
  | [] => []
  | [e] => serializeEntry e
  | e :: rest => serializeEntry e ++ ',' :: serializeCommands rest

/-- Fuel-indexed parser for a non-empty serialized command list up to and
including the closing bracket. -/
def parseCommandsAux : Nat → List Char → Option (List CaptureEntry × List Char)
  | 0, _ => none
  | f + 1, input =>
    match parseEntry input with
    | none => none
    | some (e, rest) =>
      match rest with
      | ',' :: rest2 =>
        match parseCommandsAux f rest2 with
        | none => none
        | some (es, r) => some (e :: es, r)
      | ']' :: rest2 => some ([e], rest2)
      | _ => none

/-- Parser for a serialized command list up to and including the closing
bracket, the empty list accepted when no entry parses. -/
def parseCommandsNil : List Char → Option (List CaptureEntry × List Char)
  | ']' :: rest => some ([], rest)
  | _ => none

/-- Parser for a serialized command list: a non-empty entry list when one
parses, otherwise the empty list before a closing bracket. -/
def parseCommands (fuel : Nat) (input : List Char) :
    Option (List CaptureEntry × List Char) :=
  (parseCommandsAux fuel input).orElse fun _ => parseCommandsNil input

/-- Literal chunk opening a capture file up to the version field. -/
def chunkFile1 : List Char := "\x7b\"version\":\"".data

/-- Literal chunk between the version field and the command list. -/
def chunkFile2 : List Char := ",\"commands\":[".data

/-- Modelled from the spec: the serialized capture file, a version tag plus
the ordered command list, in the JSON shape the notebook shows (modulo the
non-semantic whitespace of the pretty-printer). -/
def serializeFile (f : CaptureFile) : List Char :=
  chunkFile1 ++ escapeS f.version.data ++ '"' ::
    (chunkFile2 ++ serializeCommands f.commands ++ ']' :: chunkEntryEnd)

/-- Modelled from the spec: the capture file loader; fails on any input that
is not a well-formed serialized capture file. -/
def deserializeFile (input : List Char) : Option CaptureFile := do
  let i1 ← lit chunkFile1 input
  let (v, i2) ← parseQuoted i1
  let i3 ← lit chunkFile2 i2
  let (es, i4) ← parseCommands i3.length i3
  let i5 ← lit chunkEntryEnd i4
  match i5 with
  | [] => pure ⟨String.mk v, es⟩
  | _ :: _ => none

/-- Modelled from the spec: an MFX module to be screwed onto a carrier base,
identified here by its holder category (plate_holder, resource_holder, ...);
the MFXCarrier implementation is not under src/, only the MFXCarrier
notebook, whose outputs this model follows. -/
structure MFXModule where
  category : String
deriving DecidableEq, Repr

/-- Holder child created for an occupied carrier spot. -/
structure SpotHolder where
  name : String
  category : String
deriving DecidableEq, Repr

/-- Modelled from the spec: an MFX carrier configured by a dictionary from
site numbers to modules. -/
structure MFXCarrier where
  name : String
  modules : List (Nat × MFXModule)
deriving DecidableEq, Repr

/-- Error raised when indexing an undefined carrier site. -/
inductive CarrierError
  | keyError
deriving DecidableEq, Repr

/-- Name given to the holder at a carrier spot, as the notebook shows. -/
def spotName (carrier : String) (k : Nat) : String :=
  "carrier-" ++ carrier ++ "-spot-" ++ toString k

/-- Modelled from the spec: indexing an MFXCarrier returns the holder placed
at a configured spot and raises KeyError on an undefined site, as the
MFXCarrier notebook demonstrates. -/
def MFXCarrier.getItem (c : MFXCarrier) (k : Nat) : Except CarrierError SpotHolder :=
  match c.modules.lookup k with
  | some m => .ok ⟨spotName c.name k, m.category⟩
  | none => .error .keyError

/-- Quadrant identifier, the position relative to the plate front-left. -/
inductive Quadrant
  | tl
  | tr
  | bl
  | br
deriving DecidableEq, Repr

/-- Quadrant type: symmetric-axes blocks or every-other-row-and-column. -/
inductive QuadrantType
  | block
  | checkerboard
deriving DecidableEq, Repr

/-- Internal fill order of the returned well list. -/
inductive FillOrder
  | columnMajor
  | rowMajor
deriving DecidableEq, Repr

/-- Modelled from the spec: membership of a well (zero-based row and column
indices, row 0 the top row A, column 0 the leftmost column 1) in a quadrant
of an nRows-by-nCols plate, per the plate-quadrants notebook. -/
def inQuadrant (nRows nCols : Nat) (q : Quadrant) (qt : QuadrantType)
    (rc : Nat × Nat) : Bool :=
  match qt, q with
  | .checkerboard, .tl => rc.1 % 2 == 0 && rc.2 % 2 == 0
  | .checkerboard, .tr => rc.1 % 2 == 0 && rc.2 % 2 == 1
  | .checkerboard, .bl => rc.1 % 2 == 1 && rc.2 % 2 == 0
  | .checkerboard, .br => rc.1 % 2 == 1 && rc.2 % 2 == 1
  | .block, .tl => decide (rc.1 < nRows / 2) && decide (rc.2 < nCols / 2)
  | .block, .tr => decide (rc.1 < nRows / 2) && decide (nCols / 2 ≤ rc.2)
  | .block, .bl => decide (nRows / 2 ≤ rc.1) && decide (rc.2 < nCols / 2)
  | .block, .br => decide (nRows / 2 ≤ rc.1) && decide (nCols / 2 ≤ rc.2)

/-- All wells of a plate enumerated down each column in turn. -/
def cellsColumnMajor (nRows nCols : Nat) : List (Nat × Nat) :=
  (List.range nCols).flatMap fun c => (List.range nRows).map fun r => (r, c)

/-- All wells of a plate enumerated across each row in turn. -/
def cellsRowMajor (nRows nCols : Nat) : List (Nat × Nat) :=
  (List.range nRows).flatMap fun r => (List.range nCols).map fun c => (r, c)

/-- Modelled from the spec: Plate.get_quadrant filters the wells of the
plate by quadrant membership, enumerated in the requested fill order. -/
def get_quadrant (nRows nCols : Nat) (q : Quadrant) (qt : QuadrantType)
    (fo : FillOrder) : List (Nat × Nat) :=
  match fo with
  | .columnMajor => (cellsColumnMajor nRows nCols).filter (inQuadrant nRows nCols q qt)
  | .rowMajor => (cellsRowMajor nRows nCols).filter (inQuadrant nRows nCols q qt)

/-- Rebuilding a string from its character data is the identity. -/
theorem strMk_data (s : String) : String.mk s.data = s := rfl

/-- Replay of a protocol run against the capture of that run followed by any
further entries consumes exactly the corresponding leading entries, returns
the captured read results, and leaves the capture of the remaining entries. -/
theorem validateRun_captureRun_append (oracle : Nat → String) (cs : List Call) :
    ∀ (rest : List Call) (k : Nat),
      validateRun cs (captureRun oracle k (cs ++ rest)) =
        .ok (collectReads oracle k cs, captureRun oracle (k + numReads cs) rest) := by
  induction cs with
  | nil =>
    intro rest k
    simp [validateRun, collectReads, numReads]
  | cons c cs ih =>
    intro rest k
    cases c with
    | write dev data =>
      simp [captureRun, validateRun, validate_write, collectReads, numReads, ih]
    | read dev =>
      have h : k + (numReads cs + 1) = k + 1 + numReads cs := by omega
      simp [captureRun, validateRun, validate_read, collectReads, numReads, h, ih]

/-- Capture of a non-empty run is a non-empty entry list. -/
theorem captureRun_ne_nil (oracle : Nat → String) (k : Nat) (cs : List Call)
    (h : cs ≠ []) : captureRun oracle k cs ≠ [] := by
  match cs, h with
  | .write dev data :: rest, _ => simp [captureRun]
  | .read dev :: rest, _ => simp [captureRun]

/-- C1: for every protocol run, capturing the run with start_capture and
stop_capture and then validating the identical call sequence against the
capture just produced succeeds without error, and the subsequent
end_validation call finds the loaded entry queue empty and succeeds. -/
theorem capture_then_validate_roundtrip (oracle : Nat → String) (cs : List Call) :
    start_capture .inactive = .ok (.capturing []) ∧
    stop_capture (.capturing (captureRun oracle 0 cs)) =
      .ok (.inactive, ⟨plrVersion, captureRun oracle 0 cs⟩) ∧
    validate ⟨plrVersion, captureRun oracle 0 cs⟩ .inactive =
      .ok (.validating (captureRun oracle 0 cs)) ∧
    validateRun cs (captureRun oracle 0 cs) = .ok (collectReads oracle 0 cs, []) ∧
    end_validation (.validating []) = .ok .inactive := by
  refine ⟨rfl, rfl, rfl, ?_, rfl⟩
  have h := validateRun_captureRun_append oracle cs [] 0
  simpa [captureRun] using h

/-- C3: end_validation raises IncompleteValidationError exactly when entries
remain unconsumed in the loaded queue, and validating a strict prefix of the
captured call sequence and then calling end_validation always raises
IncompleteValidationError rather than passing silently. -/
theorem end_validation_incomplete (q : List CaptureEntry) (oracle : Nat → String)
    (cs rest : List Call) (hne : rest ≠ []) :
    (end_validation (.validating q) = .error .incompleteValidationError ↔ q ≠ []) ∧
    ∃ results leftover,
      validateRun cs (captureRun oracle 0 (cs ++ rest)) = .ok (results, leftover) ∧
      leftover ≠ [] ∧
      end_validation (.validating leftover) = .error .incompleteValidationError := by
  constructor
  · cases q with
    | nil => simp [end_validation]
    | cons e q => simp [end_validation]
  · refine ⟨collectReads oracle 0 cs, captureRun oracle (0 + numReads cs) rest,
      validateRun_captureRun_append oracle cs rest 0, ?_, ?_⟩
    · exact captureRun_ne_nil oracle _ rest hne
    · have h := captureRun_ne_nil oracle (0 + numReads cs) rest hne
      cases hcap : captureRun oracle (0 + numReads cs) rest with
      | nil => exact absurd hcap h
      | cons e t => rfl

/-- Witness for C3 on the notebook's concrete scenario: capture a write and a
read on device A, validate only the write, and end_validation fails. -/
theorem end_validation_incomplete_witness :
    (end_validation (.validating [⟨"usb", "A", .read, "PONG"⟩]) =
       .error .incompleteValidationError ↔
       ([⟨"usb", "A", .read, "PONG"⟩] : List CaptureEntry) ≠ []) ∧
    ∃ results leftover,
      validateRun [.write "A" "PING"]
          (captureRun (fun _ => "PONG") 0 ([.write "A" "PING"] ++ [.read "A"])) =
        .ok (results, leftover) ∧
      leftover ≠ [] ∧
      end_validation (.validating leftover) = .error .incompleteValidationError :=
  end_validation_incomplete [⟨"usb", "A", .read, "PONG"⟩] (fun _ => "PONG")
    [.write "A" "PING"] [.read "A"] (by simp)

/-- C4: the session state is exactly one of inactive, capturing or
validating, the four control operations effect exactly the permitted
transitions, and calling any of them from a state outside its permitted
transition set is a ModeError rather than a silent no-op. -/
theorem session_state_machine :
    (∀ s : SessionState, s = .inactive ∨ (∃ log, s = .capturing log) ∨
      (∃ q, s = .validating q)) ∧
    start_capture .inactive = .ok (.capturing []) ∧
    (∀ log, start_capture (.capturing log) = .error .modeError) ∧
    (∀ q, start_capture (.validating q) = .error .modeError) ∧
    (∀ log, stop_capture (.capturing log) = .ok (.inactive, ⟨plrVersion, log⟩)) ∧
    stop_capture .inactive = .error .modeError ∧
    (∀ q, stop_capture (.validating q) = .error .modeError) ∧
    (∀ f, validate f .inactive = .ok (.validating f.commands)) ∧
    (∀ f log, validate f (.capturing log) = .error .modeError) ∧
    (∀ f q, validate f (.validating q) = .error .modeError) ∧
    end_validation (.validating []) = .ok .inactive ∧
    end_validation .inactive = .error .modeError ∧
    (∀ log, end_validation (.capturing log) = .error .modeError) := by
  refine ⟨?_, rfl, fun _ => rfl, fun _ => rfl, fun _ => rfl, rfl, fun _ => rfl,
    fun _ => rfl, fun _ _ => rfl, fun _ _ => rfl, rfl, rfl, fun _ => rfl⟩
  intro s
  cases s with
  | inactive => exact Or.inl rfl
  | capturing log => exact Or.inr (Or.inl ⟨log, rfl⟩)
  | validating q => exact Or.inr (Or.inr ⟨q, rfl⟩)

/-- Cost of an alignment path decomposes over its head column. -/
theorem alignCost_cons (op : AlignOp) (ops : List AlignOp) :
    alignCost (op :: ops) = opCost op + alignCost ops := by
  simp [alignCost]

/-- Cost of the deterministic minimum choice is the minimum of the costs. -/
theorem cost_pickMin (x y : List AlignOp) :
    alignCost (pickMin x y) = min (alignCost x) (alignCost y) := by
  unfold pickMin
  split <;> omega

/-- Expected-side projection distributes over path concatenation. -/
theorem expSide_append (xs ys : List AlignOp) :
    expSide (xs ++ ys) = expSide xs ++ expSide ys := by
  induction xs with
  | nil => rfl
  | cons op t ih => cases op <;> simp [expSide, ih]

/-- Actual-side projection distributes over path concatenation. -/
theorem actSide_append (xs ys : List AlignOp) :
    actSide (xs ++ ys) = actSide xs ++ actSide ys := by
  induction xs with
  | nil => rfl
  | cons op t ih => cases op <;> simp [actSide, ih]

/-- Expected side of an all-deletion path is the whole sequence. -/
theorem expSide_delAll (es : List Char) : expSide (delAll es) = es := by
  induction es with
  | nil => rfl
  | cons e t ih => simpa [delAll, expSide] using ih

/-- Actual side of an all-deletion path is empty. -/
theorem actSide_delAll (es : List Char) : actSide (delAll es) = [] := by
  induction es with
  | nil => rfl
  | cons e t ih => simpa [delAll, actSide] using ih

/-- Expected side of an all-insertion path is empty. -/
theorem expSide_insAll (as : List Char) : expSide (insAll as) = [] := by
  induction as with
  | nil => rfl
  | cons a t ih => simpa [insAll, expSide] using ih

/-- Actual side of an all-insertion path is the whole sequence. -/
theorem actSide_insAll (as : List Char) : actSide (insAll as) = as := by
  induction as with
  | nil => rfl
  | cons a t ih => simpa [insAll, actSide] using ih

/-- Minimum choice between two alignments of the same sequences aligns them. -/
theorem aligns_pickMin {x y : List AlignOp} {es as : List Char}
    (hx : Aligns x es as) (hy : Aligns y es as) : Aligns (pickMin x y) es as := by
  unfold pickMin
  split
  · exact hx
  · exact hy

/-- Extending an alignment by an aligned pair aligns the extended sequences. -/
theorem aligns_subst_cons {ops : List AlignOp} {es as : List Char} (e a : Char)
    (h : Aligns ops es as) : Aligns (.subst e a :: ops) (e :: es) (a :: as) :=
  ⟨by simp [expSide, h.1], by simp [actSide, h.2]⟩

/-- Extending an alignment by a deletion aligns the extended expected side. -/
theorem aligns_del_cons {ops : List AlignOp} {es as : List Char} (e : Char)
    (h : Aligns ops es as) : Aligns (.del e :: ops) (e :: es) as :=
  ⟨by simp [expSide, h.1], by simp [actSide, h.2]⟩

/-- Extending an alignment by an insertion aligns the extended actual side. -/
theorem aligns_ins_cons {ops : List AlignOp} {es as : List Char} (a : Char)
    (h : Aligns ops es as) : Aligns (.ins a :: ops) es (a :: as) :=
  ⟨by simp [expSide, h.1], by simp [actSide, h.2]⟩

/-- At every fuel the Needleman-Wunsch core yields a genuine global alignment
of its two input sequences. -/
theorem aligns_nwAux : ∀ (f : Nat) (es as : List Char), Aligns (nwAux f es as) es as := by
  intro f
  induction f with
  | zero =>
    intro es as
    exact ⟨by simp [nwAux, expSide_append, expSide_delAll, expSide_insAll],
      by simp [nwAux, actSide_append, actSide_delAll, actSide_insAll]⟩
  | succ f ih =>
    intro es as
    cases es with
    | nil => exact ⟨expSide_insAll as, actSide_insAll as⟩
    | cons e es =>
      cases as with
      | nil =>
        refine ⟨?_, ?_⟩
        · simpa [nwAux, expSide] using expSide_delAll es
        · simpa [nwAux, actSide] using actSide_delAll es
      | cons a as =>
        exact aligns_pickMin (aligns_subst_cons e a (ih es as))
          (aligns_pickMin (aligns_del_cons e (ih es (a :: as)))
            (aligns_ins_cons a (ih (e :: es) as)))

/-- Against an empty actual sequence the aligner is the all-deletion path. -/
theorem nwAux_nil_right : ∀ (f : Nat) (es : List Char), nwAux f es [] = delAll es := by
  intro f es
  cases f with
  | zero => simp [nwAux, insAll]
  | succ f =>
    cases es with
    | nil => simp [nwAux, insAll, delAll]
    | cons e t => simp [nwAux, delAll]

/-- Against an empty expected sequence the aligner is the all-insertion path. -/
theorem nwAux_nil_left : ∀ (f : Nat) (as : List Char), nwAux f [] as = insAll as := by
  intro f as
  cases f with
  | zero => simp [nwAux, delAll]
  | succ f => simp [nwAux]

/-- Aligner cost is at most the cost of taking the head pair aligned. -/
theorem nwAux_le_subst (f : Nat) (e a : Char) (es as : List Char) :
    alignCost (nwAux (f + 1) (e :: es) (a :: as)) ≤
      alignCost (.subst e a :: nwAux f es as) := by
  simp only [nwAux, cost_pickMin]
  omega

/-- Aligner cost is at most the cost of deleting the head expected token. -/
theorem nwAux_le_del (f : Nat) (e a : Char) (es as : List Char) :
    alignCost (nwAux (f + 1) (e :: es) (a :: as)) ≤
      alignCost (.del e :: nwAux f es (a :: as)) := by
  simp only [nwAux, cost_pickMin]
  omega

/-- Aligner cost is at most the cost of inserting the head actual token. -/
theorem nwAux_le_ins (f : Nat) (e a : Char) (es as : List Char) :
    alignCost (nwAux (f + 1) (e :: es) (a :: as)) ≤
      alignCost (.ins a :: nwAux f (e :: es) as) := by
  simp only [nwAux, cost_pickMin]
  omega

/-- Minimality of the fuel-indexed aligner: given sufficient fuel, no global
alignment of the projections of a path costs less than the aligner's result. -/
theorem nwAux_min : ∀ (ops : List AlignOp) (f : Nat),
    (expSide ops).length + (actSide ops).length ≤ f →
    alignCost (nwAux f (expSide ops) (actSide ops)) ≤ alignCost ops := by
  intro ops
  induction ops with
  | nil =>
    intro f _
    rw [show expSide [] = [] from rfl, show actSide [] = [] from rfl, nwAux_nil_left]
    simp [insAll, alignCost]
  | cons op t ih =>
    intro f hf
    cases op with
    | subst e a =>
      simp only [expSide, actSide] at hf ⊢
      cases f with
      | zero => simp at hf
      | succ f =>
        have h2 : alignCost (nwAux f (expSide t) (actSide t)) ≤ alignCost t := by
          apply ih
          simp at hf
          omega
        calc alignCost (nwAux (f + 1) (e :: expSide t) (a :: actSide t))
            ≤ alignCost (.subst e a :: nwAux f (expSide t) (actSide t)) :=
              nwAux_le_subst f e a (expSide t) (actSide t)
          _ = opCost (.subst e a) + alignCost (nwAux f (expSide t) (actSide t)) :=
              alignCost_cons _ _
          _ ≤ opCost (.subst e a) + alignCost t := by omega
          _ = alignCost (.subst e a :: t) := (alignCost_cons _ _).symm
    | del e =>
      simp only [expSide, actSide] at hf ⊢
      have hd : alignCost (nwAux ((expSide t).length + (actSide t).length)
          (expSide t) (actSide t)) ≤ alignCost t := ih _ le_rfl
      cases has : actSide t with
      | nil =>
        rw [nwAux_nil_right]
        rw [has, nwAux_nil_right] at hd
        rw [show delAll (e :: expSide t) = .del e :: delAll (expSide t) from rfl]
        rw [alignCost_cons, alignCost_cons]
        omega
      | cons a as =>
        cases f with
        | zero => simp at hf
        | succ f =>
          have h2 : alignCost (nwAux f (expSide t) (actSide t)) ≤ alignCost t := by
            apply ih
            rw [has] at hf ⊢
            simp at hf ⊢
            omega
          rw [has] at h2
          calc alignCost (nwAux (f + 1) (e :: expSide t) (a :: as))
              ≤ alignCost (.del e :: nwAux f (expSide t) (a :: as)) :=
                nwAux_le_del f e a (expSide t) as
            _ = opCost (.del e) + alignCost (nwAux f (expSide t) (a :: as)) :=
                alignCost_cons _ _
            _ ≤ opCost (.del e) + alignCost t := by omega
            _ = alignCost (.del e :: t) := (alignCost_cons _ _).symm
    | ins a =>
      simp only [expSide, actSide] at hf ⊢
      have hd : alignCost (nwAux ((expSide t).length + (actSide t).length)
          (expSide t) (actSide t)) ≤ alignCost t := ih _ le_rfl
      cases hes : expSide t with
      | nil =>
        rw [nwAux_nil_left]
        rw [hes, nwAux_nil_left] at hd
        rw [show insAll (a :: actSide t) = .ins a :: insAll (actSide t) from rfl]
        rw [alignCost_cons, alignCost_cons]
        omega
      | cons e es =>
        cases f with
        | zero =>
          rw [hes] at hf
          simp at hf
        | succ f =>
          have h2 : alignCost (nwAux f (expSide t) (actSide t)) ≤ alignCost t := by
            apply ih
            rw [hes] at hf ⊢
            simp at hf ⊢
            omega
          rw [hes] at h2
          calc alignCost (nwAux (f + 1) (e :: es) (a :: actSide t))
              ≤ alignCost (.ins a :: nwAux f (e :: es) (actSide t)) :=
                nwAux_le_ins f e a es (actSide t)
            _ = opCost (.ins a) + alignCost (nwAux f (e :: es) (actSide t)) :=
                alignCost_cons _ _
            _ ≤ opCost (.ins a) + alignCost t := by omega
            _ = alignCost (.ins a :: t) := (alignCost_cons _ _).symm

/-- Marker column shows a caret exactly when the column contents differ. -/
theorem markerOf_caret (op : AlignOp) :
    markerOf op = '^' ↔ colExp op ≠ colAct op := by
  cases op with
  | subst e a =>
    by_cases h : e = a
    · subst h
      simp only [markerOf, colExp, colAct, if_pos rfl, ne_eq, not_true_eq_false,
        iff_false]
      decide
    · simp [markerOf, colExp, colAct, h]
  | del e => simp [markerOf, colExp, colAct]
  | ins a => simp [markerOf, colExp, colAct]

/-- C7: the sequence aligner is a pure function of its two token sequences
whose result is a genuine global alignment of minimum cost under the fixed
unit substitution, insertion and deletion costs; the two rendered lines and
the marker line all have the common alignment length, the lines are the
gap-padded column contents, and the marker line carries a caret at exactly
the columns whose expected and actual contents differ. -/
theorem nw_alignment_correct (es as : List Char) :
    Aligns (nw es as) es as ∧
    (∀ ops, Aligns ops es as → alignCost (nw es as) ≤ alignCost ops) ∧
    (renderExp (nw es as)).length = (nw es as).length ∧
    (renderAct (nw es as)).length = (nw es as).length ∧
    (renderMarker (nw es as)).length = (nw es as).length ∧
    renderExp (nw es as) = (nw es as).map (fun op => (colExp op).getD gapChar) ∧
    renderAct (nw es as) = (nw es as).map (fun op => (colAct op).getD gapChar) ∧
    (∀ (i : Nat) (op : AlignOp), (nw es as)[i]? = some op →
      ((renderMarker (nw es as))[i]? = some '^' ↔ colExp op ≠ colAct op)) := by
  refine ⟨aligns_nwAux _ es as, ?_, ?_, ?_, ?_, ?_, ?_, ?_⟩
  · intro ops hops
    have h := nwAux_min ops (es.length + as.length)
      (by rw [hops.1, hops.2])
    rw [hops.1, hops.2] at h
    exact h
  · simp [renderExp]
  · simp [renderAct]
  · simp [renderMarker]
  · apply List.map_congr_left
    intro op _
    cases op <;> rfl
  · apply List.map_congr_left
    intro op _
    cases op <;> rfl
  · intro i op hop
    simp only [renderMarker, List.getElem?_map, hop]
    simpa using markerOf_caret op

/-- Witness for C7 on the concrete mismatch PING versus PONK: the aligner
beats the column-by-column substitution path, and the marker at column one
flags the differing pair. -/
theorem nw_alignment_correct_witness :
    alignCost (nw "PING".data "PONK".data) ≤
      alignCost [.subst 'P' 'P', .subst 'I' 'O', .subst 'N' 'N', .subst 'G' 'K'] ∧
    ((renderMarker (nw "PING".data "PONK".data))[1]? = some '^' ↔
      colExp (AlignOp.subst 'I' 'O') ≠ colAct (AlignOp.subst 'I' 'O')) :=
  ⟨(nw_alignment_correct "PING".data "PONK".data).2.1
      [.subst 'P' 'P', .subst 'I' 'O', .subst 'N' 'N', .subst 'G' 'K'] (by decide),
   (nw_alignment_correct "PING".data "PONK".data).2.2.2.2.2.2.2 1
      (AlignOp.subst 'I' 'O') (by decide)⟩

set_option maxRecDepth 8000 in
/-- Counterexample for C2 as stated: on a data mismatch the ValidationError
carries the fixed message of the notebook traceback, the rendered alignment
diff goes to stdout instead, and the diff cannot be embedded in that message
(the message is even shorter than the diff). -/
theorem validate_write_message_counterexample :
    (validate_write "A" "" [⟨"usb", "A", .write, longData⟩]).2 =
      .error (.validationError dataMismatchMsg) ∧
    (validate_write "A" "" [⟨"usb", "A", .write, longData⟩]).1 =
      [renderDiff longData ""] ∧
    (∀ s t : List Char,
      s ++ (renderDiff longData "").data ++ t ≠ dataMismatchMsg.data) := by
  refine ⟨rfl, rfl, ?_⟩
  have hdiff : (renderDiff longData "").data.length = 152 := by decide
  have hmsg : dataMismatchMsg.data.length = 48 := by decide
  intro s t h
  have hl := congrArg List.length h
  rw [List.length_append, List.length_append, hdiff, hmsg] at hl
  omega

/-- C2 amended: validate_write pops the next entry from the loaded global
queue and fails with a ValidationError (never any other error kind) exactly
when the queue is empty, the popped entry is not a Write, its device differs,
or its data is not byte-for-byte equal; on a data mismatch the rendered
alignment diff is written to stdout and the error carries a fixed message
referring to it. The validator holds no transport collaborator, so no real
transport call is made. -/
theorem validate_write_spec (dev data : String) (q : List CaptureEntry) :
    (q = [] → (validate_write dev data q).2 =
      .error (.validationError "Queue is empty")) ∧
    (∀ e rest, q = e :: rest →
      (e.action = .write → e.device_id = dev → e.data = data →
        validate_write dev data q = ([], .ok rest)) ∧
      (e.action ≠ .write →
        ∃ msg, (validate_write dev data q).2 = .error (.validationError msg)) ∧
      (e.device_id ≠ dev →
        ∃ msg, (validate_write dev data q).2 = .error (.validationError msg)) ∧
      (e.action = .write → e.device_id = dev → e.data ≠ data →
        validate_write dev data q =
          ([renderDiff e.data data], .error (.validationError dataMismatchMsg)))) ∧
    (∀ err, (validate_write dev data q).2 = .error err →
      ∃ msg, err = .validationError msg) := by
  refine ⟨?_, ?_, ?_⟩
  · rintro rfl
    rfl
  · rintro e rest rfl
    refine ⟨?_, ?_, ?_, ?_⟩
    · intro h1 h2 h3
      simp [validate_write, h1, h2, h3]
    · intro h1
      exact ⟨"Action mismatch", by simp [validate_write, h1]⟩
    · intro h2
      by_cases h1 : e.action = Action.write
      · exact ⟨"Device mismatch", by simp [validate_write, h1, h2]⟩
      · exact ⟨"Action mismatch", by simp [validate_write, h1]⟩
    · intro h1 h2 h3
      simp [validate_write, h1, h2, h3]
  · intro err herr
    cases q with
    | nil =>
      refine ⟨"Queue is empty", ?_⟩
      simp [validate_write] at herr
      exact herr.symm
    | cons e rest =>
      by_cases h1 : e.action = Action.write
      · by_cases h2 : e.device_id = dev
        · by_cases h3 : e.data = data
          · simp [validate_write, h1, h2, h3] at herr
          · refine ⟨dataMismatchMsg, ?_⟩
            simp [validate_write, h1, h2, h3] at herr
            exact herr.symm
        · refine ⟨"Device mismatch", ?_⟩
          simp [validate_write, h1, h2] at herr
          exact herr.symm
      · refine ⟨"Action mismatch", ?_⟩
        simp [validate_write, h1] at herr
        exact herr.symm

/-- Witness for C2 on the notebook scenario: a matching write succeeds by
popping the entry, and a mismatching write on the same queue yields the
stdout diff with the fixed-message ValidationError. -/
theorem validate_write_spec_witness :
    validate_write "A" "PING" [⟨"usb", "A", .write, "PING"⟩] = ([], .ok []) ∧
    validate_write "A" "PONK" [⟨"usb", "A", .write, "PING"⟩] =
      ([renderDiff "PING" "PONK"], .error (.validationError dataMismatchMsg)) :=
  ⟨((validate_write_spec "A" "PING" [⟨"usb", "A", .write, "PING"⟩]).2.1
      ⟨"usb", "A", .write, "PING"⟩ [] rfl).1 rfl rfl rfl,
   ((validate_write_spec "A" "PONK" [⟨"usb", "A", .write, "PING"⟩]).2.1
      ⟨"usb", "A", .write, "PING"⟩ [] rfl).2.2.2 rfl rfl (by decide)⟩

/-- C5: validate_read pops the next entry from the loaded queue, requires a
Read entry for the same device (a ValidationError otherwise), and on success
returns that entry's stored data as the read result; the result does not
depend on the timeout because no real transport call is made, which is what
lets replay run with no physical device present. -/
theorem validate_read_spec (dev : String) (timeout : Nat) (q : List CaptureEntry) :
    (q = [] → validate_read dev timeout q =
      .error (.validationError "Queue is empty")) ∧
    (∀ e rest, q = e :: rest →
      (e.action = .read → e.device_id = dev →
        validate_read dev timeout q = .ok (e.data, rest)) ∧
      (e.action ≠ .read →
        ∃ msg, validate_read dev timeout q = .error (.validationError msg)) ∧
      (e.device_id ≠ dev →
        ∃ msg, validate_read dev timeout q = .error (.validationError msg))) ∧
    (∀ other : Nat, validate_read dev timeout q = validate_read dev other q) := by
  refine ⟨?_, ?_, fun _ => rfl⟩
  · rintro rfl
    rfl
  · rintro e rest rfl
    refine ⟨?_, ?_, ?_⟩
    · intro h1 h2
      simp [validate_read, h1, h2]
    · intro h1
      exact ⟨"Action mismatch", by simp [validate_read, h1]⟩
    · intro h2
      by_cases h1 : e.action = Action.read
      · exact ⟨"Device mismatch", by simp [validate_read, h1, h2]⟩
      · exact ⟨"Action mismatch", by simp [validate_read, h1]⟩

/-- Witness for C5 on the notebook scenario: replaying the read on device A
returns the stored PONG answer without hardware, at either timeout. -/
theorem validate_read_spec_witness :
    validate_read "A" 30 [⟨"usb", "A", .read, "PONG"⟩] = .ok ("PONG", []) ∧
    validate_read "A" 30 [⟨"usb", "A", .read, "PONG"⟩] =
      validate_read "A" 60 [⟨"usb", "A", .read, "PONG"⟩] :=
  ⟨((validate_read_spec "A" 30 [⟨"usb", "A", .read, "PONG"⟩]).2.1
      ⟨"usb", "A", .read, "PONG"⟩ [] rfl).1 rfl rfl,
   (validate_read_spec "A" 30 [⟨"usb", "A", .read, "PONG"⟩]).2.2 60⟩

/-- Equal per-device projections of two runs with equal heads cancel to equal
per-device projections of the tails. -/
theorem projDev_cons_cancel {c : Call} {t t2 : List Call}
    (h : ∀ d, projDev d (c :: t) = projDev d (c :: t2)) :
    ∀ d, projDev d t = projDev d t2 := by
  intro d
  by_cases hd : c.dev = d
  · have hc := h d
    simp [projDev, hd] at hc
    exact hc
  · have hc := h d
    simpa [projDev, hd] using hc

/-- Two runs with identical per-device subsequences that differ as sequences
have a first diverging position, before which they agree. -/
theorem exists_first_divergence : ∀ (cs cs2 : List Call),
    (∀ d, projDev d cs2 = projDev d cs) → cs2 ≠ cs →
    ∃ i c c2, cs.take i = cs2.take i ∧ cs[i]? = some c ∧
      cs2[i]? = some c2 ∧ c2 ≠ c := by
  intro cs
  induction cs with
  | nil =>
    intro cs2 hproj hne
    cases cs2 with
    | nil => exact absurd rfl hne
    | cons c2 t2 =>
      exfalso
      have h := hproj c2.dev
      simp [projDev] at h
  | cons c t ih =>
    intro cs2 hproj hne
    cases cs2 with
    | nil =>
      exfalso
      have h := hproj c.dev
      simp [projDev] at h
    | cons c2 t2 =>
      by_cases hcc : c2 = c
      · subst hcc
        have ht2 : t2 ≠ t := by
          intro h
          exact hne (by rw [h])
        obtain ⟨i, d1, d2, htake, h1, h2, hd⟩ :=
          ih t2 (projDev_cons_cancel hproj) ht2
        exact ⟨i + 1, d1, d2, by simpa [List.take_succ_cons] using htake,
          by simpa using h1, by simpa using h2, hd⟩
      · exact ⟨0, c, c2, rfl, by simp, by simp, hcc⟩

/-- Replay of a concatenated run first replays the left part; if the left
part succeeds and the right part then fails, the whole run fails the same
way. -/
theorem validateRun_append_error {xs : List Call} {q : List CaptureEntry}
    {rs : List String} {q2 : List CaptureEntry} {err : PlrError} :
    ∀ (ys : List Call), validateRun xs q = .ok (rs, q2) →
      validateRun ys q2 = .error err →
      validateRun (xs ++ ys) q = .error err := by
  induction xs generalizing q rs with
  | nil =>
    intro ys hok herr
    simp [validateRun] at hok
    rw [List.nil_append, hok.2]
    exact herr
  | cons c t ih =>
    intro ys hok herr
    cases c with
    | write dev data =>
      rw [List.cons_append]
      simp only [validateRun] at hok ⊢
      cases hw : (validate_write dev data q).2 with
      | error e =>
        rw [hw] at hok
        simp at hok
      | ok q3 =>
        rw [hw] at hok
        exact ih ys hok herr
    | read dev =>
      rw [List.cons_append]
      simp only [validateRun] at hok ⊢
      cases hr : validate_read dev 0 q with
      | error e =>
        rw [hr] at hok
        simp at hok
      | ok p =>
        obtain ⟨d1, q3⟩ := p
        rw [hr] at hok
        dsimp only at hok ⊢
        cases hrec : validateRun t q3 with
        | error e =>
          rw [hrec] at hok
          simp at hok
        | ok p2 =>
          rw [hrec] at hok
          obtain ⟨ds, qf⟩ := p2
          dsimp only at hok
          injection hok with hok
          injection hok with hok1 hok2
          subst hok2
          rw [ih ys hrec herr]

/-- Replaying a call different from the one whose capture entry is at the
head of the remaining queue fails at once with a ValidationError, whatever
the differing component is. -/
theorem validateRun_step_mismatch (c c2 : Call) (hne : c2 ≠ c)
    (oracle : Nat → String) (k : Nat) (cs2 rest : List Call) :
    ∃ msg, validateRun (c2 :: rest) (captureRun oracle k (c :: cs2)) =
      .error (.validationError msg) := by
  cases c2 with
  | write d2 x2 =>
    cases c with
    | write d x =>
      by_cases hd : d = d2
      · subst hd
        have hx : x ≠ x2 := by
          intro h
          exact hne (by rw [h])
        exact ⟨dataMismatchMsg, by simp [captureRun, validateRun, validate_write, hx]⟩
      · exact ⟨"Device mismatch", by simp [captureRun, validateRun, validate_write, hd]⟩
    | read d =>
      exact ⟨"Action mismatch", by simp [captureRun, validateRun, validate_write]⟩
  | read d2 =>
    cases c with
    | write d x =>
      exact ⟨"Action mismatch", by simp [captureRun, validateRun, validate_read]⟩
    | read d =>
      have hd : d ≠ d2 := by
        intro h
        exact hne (by rw [h])
      exact ⟨"Device mismatch", by simp [captureRun, validateRun, validate_read, hd]⟩

/-- C6: the validation queue is one global FIFO across all devices in capture
order: replaying a run whose per-device subsequences each equal the captured
ones but whose cross-device interleaving differs fails with a
ValidationError at the first out-of-turn operation — the calls up to the
first divergence replay successfully, the next call fails, and so does the
whole run. -/
theorem validation_order_sensitive (cs cs2 : List Call) (oracle : Nat → String)
    (hproj : ∀ d, projDev d cs2 = projDev d cs) (hne : cs2 ≠ cs) :
    ∃ i rs q msg msg2,
      cs2.take i = cs.take i ∧
      validateRun (cs2.take i) (captureRun oracle 0 cs) = .ok (rs, q) ∧
      validateRun (cs2.take (i + 1)) (captureRun oracle 0 cs) =
        .error (.validationError msg) ∧
      validateRun cs2 (captureRun oracle 0 cs) = .error (.validationError msg2) := by
  obtain ⟨i, c, c2, htake, hc, hc2, hcc⟩ := exists_first_divergence cs cs2 hproj hne
  obtain ⟨hilt, hget⟩ := List.getElem?_eq_some_iff.mp hc
  obtain ⟨hilt2, hget2⟩ := List.getElem?_eq_some_iff.mp hc2
  have hdropcs : cs.drop i = c :: cs.drop (i + 1) := by
    rw [List.drop_eq_getElem_cons hilt, hget]
  have hcs : cs = cs.take i ++ (c :: cs.drop (i + 1)) := by
    rw [← hdropcs, List.take_append_drop]
  have hdropcs2 : cs2.drop i = c2 :: cs2.drop (i + 1) := by
    rw [List.drop_eq_getElem_cons hilt2, hget2]
  have hsplit : cs2 = cs2.take i ++ (c2 :: cs2.drop (i + 1)) := by
    rw [← hdropcs2, List.take_append_drop]
  have hok := validateRun_captureRun_append oracle (cs.take i) (c :: cs.drop (i + 1)) 0
  rw [← hcs] at hok
  rw [htake] at hok
  obtain ⟨msg, hmsg⟩ := validateRun_step_mismatch c c2 hcc oracle
    (0 + numReads (cs2.take i)) (cs.drop (i + 1)) (cs2.drop (i + 1))
  obtain ⟨msg1, hmsg1⟩ := validateRun_step_mismatch c c2 hcc oracle
    (0 + numReads (cs2.take i)) (cs.drop (i + 1)) []
  refine ⟨i, collectReads oracle 0 (cs2.take i),
    captureRun oracle (0 + numReads (cs2.take i)) (c :: cs.drop (i + 1)),
    msg1, msg, htake.symm, hok, ?_, ?_⟩
  · have htake1 : cs2.take (i + 1) = cs2.take i ++ [c2] := by
      rw [List.take_succ, hc2]
      rfl
    rw [htake1]
    exact validateRun_append_error [c2] hok hmsg1
  · rw [hsplit]
    exact validateRun_append_error (c2 :: cs2.drop (i + 1)) hok hmsg

/-- Concrete two-device interleavings with equal per-device subsequences. -/
theorem projDev_swap_example :
    ∀ d, projDev d [Call.write "B" "2", Call.write "A" "1"] =
      projDev d [Call.write "A" "1", Call.write "B" "2"] := by
  intro d
  by_cases hA : "A" = d
  · subst hA
    decide
  · by_cases hB : "B" = d
    · subst hB
      decide
    · simp [projDev, Call.dev, hA, hB]

/-- Witness for C6: capturing device A's write before device B's and then
replaying the two writes in the swapped order fails with a ValidationError
at the very first call. -/
theorem validation_order_sensitive_witness :
    ∃ i rs q msg msg2,
      ([Call.write "B" "2", Call.write "A" "1"] : List Call).take i =
        ([Call.write "A" "1", Call.write "B" "2"] : List Call).take i ∧
      validateRun (([Call.write "B" "2", Call.write "A" "1"] : List Call).take i)
        (captureRun (fun _ => "") 0 [Call.write "A" "1", Call.write "B" "2"]) =
        .ok (rs, q) ∧
      validateRun (([Call.write "B" "2", Call.write "A" "1"] : List Call).take (i + 1))
        (captureRun (fun _ => "") 0 [Call.write "A" "1", Call.write "B" "2"]) =
        .error (.validationError msg) ∧
      validateRun [Call.write "B" "2", Call.write "A" "1"]
        (captureRun (fun _ => "") 0 [Call.write "A" "1", Call.write "B" "2"]) =
        .error (.validationError msg2) :=
  validation_order_sensitive [Call.write "A" "1", Call.write "B" "2"]
    [Call.write "B" "2", Call.write "A" "1"] (fun _ => "")
    projDev_swap_example (by decide)

/-- Literal-chunk parser consumes exactly its chunk. -/
theorem lit_append (l r : List Char) : lit l (l ++ r) = some r := by
  induction l with
  | nil => rfl
  | cons c cs ih => simp [lit, ih]

/-- Field parser inverts the field escape up to the closing quote. -/
theorem parseQuoted_escape (s r : List Char) :
    parseQuoted (escapeS s ++ '"' :: r) = some (s, r) := by
  induction s with
  | nil => simp [escapeS, parseQuoted]
  | cons c t ih =>
    by_cases hc : c = '"' ∨ c = '\\'
    · simp [escapeS, escapeChar, hc, parseQuoted]
      exact ih
    · push_neg at hc
      simp [escapeS, escapeChar, hc, parseQuoted, hc.1, hc.2]
      exact ih

/-- Action parser inverts action serialization. -/
theorem parseAction_serialize (a : Action) :
    parseAction a.serialize = some a := by
  cases a <;> rfl

/-- Entry parser inverts entry serialization. -/
theorem parseEntry_serialize (e : CaptureEntry) (r : List Char) :
    parseEntry (serializeEntry e ++ r) = some (e, r) := by
  simp [parseEntry, serializeEntry, List.append_assoc, lit_append,
    parseQuoted_escape, parseAction_serialize, strMk_data]

/-- Serialized entries are never empty. -/
theorem serializeEntry_length_pos (e : CaptureEntry) :
    0 < (serializeEntry e).length := by
  rw [show serializeEntry e = '\x7b' ::
    ("\"module\":\"".data ++ escapeS e.module.data ++ '"' ::
      (chunkEntry2 ++ escapeS e.device_id.data ++ '"' ::
        (chunkEntry3 ++ escapeS e.action.serialize.data ++ '"' ::
          (chunkEntry4 ++ escapeS e.data.data ++ '"' :: chunkEntryEnd)))) from rfl]
  simp

/-- Serialized command lists are at least one character per entry. -/
theorem serializeCommands_length (es : List CaptureEntry) :
    es.length ≤ (serializeCommands es).length := by
  induction es with
  | nil => simp [serializeCommands]
  | cons e t ih =>
    cases t with
    | nil =>
      simpa [serializeCommands] using serializeEntry_length_pos e
    | cons e2 t2 =>
      rw [show serializeCommands (e :: e2 :: t2) =
        serializeEntry e ++ ',' :: serializeCommands (e2 :: t2) from rfl]
      have h := serializeEntry_length_pos e
      have ih2 : t2.length + 1 ≤ (serializeCommands (e2 :: t2)).length := by
        simpa using ih
      simp only [List.length_append, List.length_cons]
      omega

/-- Command-list parser with enough fuel inverts non-empty command-list
serialization, consuming the closing bracket. -/
theorem parseCommandsAux_serialize (es : List CaptureEntry) (hne : es ≠ []) :
    ∀ (f : Nat) (r : List Char), es.length ≤ f →
      parseCommandsAux f (serializeCommands es ++ ']' :: r) = some (es, r) := by
  induction es with
  | nil => exact absurd rfl hne
  | cons e t ih =>
    intro f r hf
    cases f with
    | zero => simp at hf
    | succ f =>
      cases t with
      | nil => simp [serializeCommands, parseCommandsAux, parseEntry_serialize]
      | cons e2 t2 =>
        have ihh := ih (by simp) f r (by simp at hf ⊢; omega)
        rw [show serializeCommands (e :: e2 :: t2) =
          serializeEntry e ++ ',' :: serializeCommands (e2 :: t2) from rfl]
        simp [parseCommandsAux, List.append_assoc, parseEntry_serialize, ihh]

/-- Command-list parser never succeeds on fuel zero or a closing bracket. -/
theorem parseCommandsAux_bracket (f : Nat) (r : List Char) :
    parseCommandsAux f (']' :: r) = none := by
  cases f with
  | zero => rfl
  | succ f =>
    have hlit : lit chunkEntry1 (']' :: r) = none := by
      rw [show chunkEntry1 = '\x7b' :: "\"module\":\"".data from rfl]
      simp only [lit]
      rw [if_neg (by decide)]
    simp [parseCommandsAux, parseEntry, hlit]

/-- Command-list parser with enough fuel inverts command-list serialization. -/
theorem parseCommands_serialize (es : List CaptureEntry) (f : Nat) (r : List Char)
    (hf : es.length ≤ f) :
    parseCommands f (serializeCommands es ++ ']' :: r) = some (es, r) := by
  cases es with
  | nil =>
    simp [serializeCommands, parseCommands, parseCommandsAux_bracket,
      parseCommandsNil]
  | cons e t =>
    simp [parseCommands, parseCommandsAux_serialize (e :: t) (by simp) f r hf]

/-- Loader inverts capture-file serialization. -/
theorem deserializeFile_serializeFile (f : CaptureFile) :
    deserializeFile (serializeFile f) = some f := by
  have hlitself : lit chunkEntryEnd chunkEntryEnd = some [] := by
    simpa using lit_append chunkEntryEnd []
  have hcmd := parseCommands_serialize f.commands
    ((serializeCommands f.commands).length + (chunkEntryEnd.length + 1))
    chunkEntryEnd
    (by have h := serializeCommands_length f.commands; omega)
  simp [deserializeFile, serializeFile, List.append_assoc, lit_append,
    parseQuoted_escape, strMk_data, hcmd, hlitself]

/-- C8: deserializing a serialized capture file recovers exactly the version
tag and the ordered entry sequence, and re-serializing the loaded file gives
byte-identical output. -/
theorem capture_file_roundtrip (f : CaptureFile) :
    deserializeFile (serializeFile f) = some f ∧
    (deserializeFile (serializeFile f)).map serializeFile =
      some (serializeFile f) ∧
    (deserializeFile (serializeFile f)).map CaptureFile.commands =
      some f.commands := by
  rw [deserializeFile_serializeFile f]
  exact ⟨rfl, rfl, rfl⟩

/-- C9: indexing an MFXCarrier with a site number given in the modules
dictionary returns the holder placed at that spot, named
carrier-(carrier name)-spot-(number), and indexing with any site number not
given raises KeyError. -/
theorem mfx_carrier_getitem (c : MFXCarrier) (k : Nat) :
    (∀ m, c.modules.lookup k = some m →
      c.getItem k = .ok ⟨spotName c.name k, m.category⟩) ∧
    (c.modules.lookup k = none → c.getItem k = .error .keyError) := by
  constructor
  · intro m hm
    simp [MFXCarrier.getItem, hm]
  · intro hm
    simp [MFXCarrier.getItem, hm]

/-- Witness for C9 on the notebook example: sites 0 and 3 are configured and
return their named holders; site 1 is undefined and raises KeyError. -/
theorem mfx_carrier_getitem_witness :
    MFXCarrier.getItem
      ⟨"my_carrier", [(0, ⟨"plate_holder"⟩), (3, ⟨"resource_holder"⟩)]⟩ 0 =
      .ok ⟨"carrier-my_carrier-spot-0", "plate_holder"⟩ ∧
    MFXCarrier.getItem
      ⟨"my_carrier", [(0, ⟨"plate_holder"⟩), (3, ⟨"resource_holder"⟩)]⟩ 3 =
      .ok ⟨"carrier-my_carrier-spot-3", "resource_holder"⟩ ∧
    MFXCarrier.getItem
      ⟨"my_carrier", [(0, ⟨"plate_holder"⟩), (3, ⟨"resource_holder"⟩)]⟩ 1 =
      .error .keyError :=
  ⟨by rw [(mfx_carrier_getitem
      ⟨"my_carrier", [(0, ⟨"plate_holder"⟩), (3, ⟨"resource_holder"⟩)]⟩ 0).1
      ⟨"plate_holder"⟩ rfl]
      rfl,
   by rw [(mfx_carrier_getitem
      ⟨"my_carrier", [(0, ⟨"plate_holder"⟩), (3, ⟨"resource_holder"⟩)]⟩ 3).1
      ⟨"resource_holder"⟩ rfl]
      rfl,
   (mfx_carrier_getitem
      ⟨"my_carrier", [(0, ⟨"plate_holder"⟩), (3, ⟨"resource_holder"⟩)]⟩ 1).2 rfl⟩

/-- Well membership in the column-major enumeration is the plate bound. -/
theorem mem_cellsColumnMajor (nRows nCols r c : Nat) :
    (r, c) ∈ cellsColumnMajor nRows nCols ↔ r < nRows ∧ c < nCols := by
  simp only [cellsColumnMajor, List.mem_flatMap, List.mem_map, List.mem_range,
    Prod.mk.injEq]
  constructor
  · rintro ⟨a, ha, b, hb, rfl, rfl⟩
    exact ⟨hb, ha⟩
  · rintro ⟨hr, hc⟩
    exact ⟨c, hc, r, hr, rfl, rfl⟩

/-- Well membership in the row-major enumeration is the plate bound. -/
theorem mem_cellsRowMajor (nRows nCols r c : Nat) :
    (r, c) ∈ cellsRowMajor nRows nCols ↔ r < nRows ∧ c < nCols := by
  simp [cellsRowMajor]

/-- Column-major enumeration is the swapped product of the index ranges. -/
theorem cellsColumnMajor_eq (nRows nCols : Nat) :
    cellsColumnMajor nRows nCols =
      ((List.range nCols).product (List.range nRows)).map Prod.swap := by
  simp only [cellsColumnMajor, List.product, List.map_flatMap, List.map_map]
  rfl

/-- Row-major enumeration is the product of the index ranges. -/
theorem cellsRowMajor_eq (nRows nCols : Nat) :
    cellsRowMajor nRows nCols =
      (List.range nRows).product (List.range nCols) := rfl

/-- Column-major enumeration has no duplicate wells. -/
theorem nodup_cellsColumnMajor (nRows nCols : Nat) :
    (cellsColumnMajor nRows nCols).Nodup := by
  rw [cellsColumnMajor_eq]
  exact ((List.nodup_range nCols).product (List.nodup_range nRows)).map
    Prod.swap_injective

/-- Row-major enumeration has no duplicate wells. -/
theorem nodup_cellsRowMajor (nRows nCols : Nat) :
    (cellsRowMajor nRows nCols).Nodup := by
  rw [cellsRowMajor_eq]
  exact (List.nodup_range nRows).product (List.nodup_range nCols)

/-- The two enumerations are permutations of each other. -/
theorem cells_perm (nRows nCols : Nat) :
    (cellsColumnMajor nRows nCols).Perm (cellsRowMajor nRows nCols) := by
  rw [List.perm_ext_iff_of_nodup (nodup_cellsColumnMajor nRows nCols)
    (nodup_cellsRowMajor nRows nCols)]
  intro a
  obtain ⟨r, c⟩ := a
  rw [mem_cellsColumnMajor, mem_cellsRowMajor]

/-- C10: for every plate, quadrant identifier and quadrant type, the two
fill orders return permutations of each other — the same set of wells in a
different order; for a 96-well (8 by 12) plate the top-left checkerboard
quadrant is exactly the 24 wells with even zero-based row index (rows A, C,
E, G) and even zero-based column index (odd one-based columns 1 through 11),
and the top-left block quadrant is exactly the 24 wells in the first four
rows (A through D) and first six columns (1 through 6). -/
theorem get_quadrant_spec :
    (∀ nRows nCols q qt,
      (get_quadrant nRows nCols q qt .columnMajor).Perm
        (get_quadrant nRows nCols q qt .rowMajor)) ∧
    (∀ r c, (r, c) ∈ get_quadrant 8 12 .tl .checkerboard .columnMajor ↔
      (r = 0 ∨ r = 2 ∨ r = 4 ∨ r = 6) ∧
        (c = 0 ∨ c = 2 ∨ c = 4 ∨ c = 6 ∨ c = 8 ∨ c = 10)) ∧
    (∀ r c, (r, c) ∈ get_quadrant 8 12 .tl .block .columnMajor ↔
      r < 4 ∧ c < 6) ∧
    (get_quadrant 8 12 .tl .checkerboard .columnMajor).length = 24 ∧
    (get_quadrant 8 12 .tl .block .columnMajor).length = 24 := by
  refine ⟨?_, ?_, ?_, by decide, by decide⟩
  · intro nRows nCols q qt
    exact (cells_perm nRows nCols).filter (inQuadrant nRows nCols q qt)
  · intro r c
    rw [get_quadrant, List.mem_filter, mem_cellsColumnMajor]
    simp only [inQuadrant]
    simp
    omega
  · intro r c
    rw [get_quadrant, List.mem_filter, mem_cellsColumnMajor]
    simp only [inQuadrant]
    simp
    omega

end PLR
